/-
Verification of the Hibou-Server real-time audio pipeline core.

This file gives a shallow embedding, in Lean 4, of the pieces of the
repository that the audited claims talk about:

* `src/audio.py`, `bytes_to_audio`            → `pcm24_bytes_to_audio`
* `src/src/audio/utils.py`, `bytes_to_audio`  → `f32_bytes_to_audio`
* `src/src/audio/utils.py`, `MultiChannelQueue` → `MCQ` (sequential
  semantics) and a micro-step interleaving semantics (`raceSuccs`) for its
  unlocked `put`
* `src/src/audio/sources/gstreamer_source.py`, `_on_new_sample`
  → `onNewSample`
* `src/src/audio/angle_of_arrival.py`, `AngleOfArrivalEstimator`
  → `AngleOfArrivalEstimator`
* `src/src/audio/audio.py`, `Source.start` / `Source.stop` / `_emit`
  and the drain loop of `GstreamerSource._run` → `Source_start`,
  `Source_stop`, `emit`, `drainQueue`.

Machine floats are embedded as exact rationals: every float32 bit pattern
denotes an exact rational (or an Inf/NaN marker), PCM24 integers below
2^24 and their division by 2^23 are exact in float32, and the angle
arithmetic of the estimator is carried out on the embedded rationals.
Python's `%` on floats is floor-mod, embedded as `pymod`.
-/
import Mathlib

/-! ## Python floor-mod on rationals

Python's `x % m` for floats (and numpy's) returns `x - m * floor (x / m)`,
a value in `[0, m)` for `m > 0`. -/

/-- Python float modulo: `x % m = x - m * ⌊x / m⌋`. -/
def pymod (x m : ℚ) : ℚ := x - m * ⌊x / m⌋

theorem pymod_eq_mul_fract (x m : ℚ) (hm : m ≠ 0) :
    pymod x m = m * Int.fract (x / m) := by
  unfold pymod Int.fract
  field_simp

theorem pymod_nonneg (x m : ℚ) (hm : 0 < m) : 0 ≤ pymod x m := by
  rw [pymod_eq_mul_fract x m (ne_of_gt hm)]
  exact mul_nonneg (le_of_lt hm) (Int.fract_nonneg _)

theorem pymod_lt (x m : ℚ) (hm : 0 < m) : pymod x m < m := by
  rw [pymod_eq_mul_fract x m (ne_of_gt hm)]
  calc m * Int.fract (x / m) < m * 1 :=
        (mul_lt_mul_left hm).mpr (Int.fract_lt_one _)
    _ = m := mul_one m

/-! ## PCM24 little-endian signed decoder

Embedding of `bytes_to_audio` in `src/audio.py`: each 3-byte group is
composed with `b0 | (b1 << 8) | (b2 << 16)` into a 24-bit unsigned
integer, values `≥ 0x800000` get `0x1000000` subtracted (two's-complement
sign extension), and the result is divided by `2^23`.  All intermediate
int32 values are below `2^24` in magnitude and hence exact in float32, so
the rational embedding is exact. -/

/-- Little-endian 24-bit composition, as written in the source:
`b0 | (b1 << 8) | (b2 << 16)`. -/
def pcm24_compose (b0 b1 b2 : ℕ) : ℕ := b0 ||| (b1 <<< 8) ||| (b2 <<< 16)

/-- Sign extension: `samples_32bit[samples_32bit >= 0x800000] -= 0x1000000`. -/
def pcm24_sign_extend (v : ℕ) : ℤ :=
  if v ≥ 0x800000 then (v : ℤ) - 0x1000000 else (v : ℤ)

/-- One decoded PCM24 sample: composed, sign-extended, divided by `2^23`. -/
def pcm24_decode_sample (b0 b1 b2 : ℕ) : ℚ :=
  ((pcm24_sign_extend (pcm24_compose b0 b1 b2) : ℤ) : ℚ) / 2 ^ 23

/-- Group a byte list into consecutive 3-byte groups (the reshape `(-1, 3)`
of the source; a trailing fragment of fewer than 3 bytes would make numpy
raise and is unreachable on aligned input). -/
def chunks3 : List ℕ → List (ℕ × ℕ × ℕ)
  | b0 :: b1 :: b2 :: rest => (b0, b1, b2) :: chunks3 rest
  | _ => []

/-- Embedding of `bytes_to_audio` from `src/audio.py` (PCM24 LE signed). -/
def pcm24_bytes_to_audio (bs : List ℕ) : List ℚ :=
  (chunks3 bs).map fun g => pcm24_decode_sample g.1 g.2.1 g.2.2

/-! ## IEEE-754 binary32 decoder and `np.nan_to_num`

Embedding of `bytes_to_audio` in `src/src/audio/utils.py`:
`np.nan_to_num(np.frombuffer(raw_bytes, dtype=np.float32))`.  A 32-bit
little-endian word is split into sign, exponent and mantissa; finite
values denote exact rationals.  `np.nan_to_num` with default arguments
maps NaN to `0.0`, `+Inf` to the largest finite float32
(`(2^24 - 1) * 2^104 = 3.4028235e38`) and `-Inf` to its negation —
not to `0.0`. -/

/-- Value denoted by a float32 bit pattern. -/
inductive F32 where
  | finite (q : ℚ)
  | posInf
  | negInf
  | nanV
  deriving DecidableEq

/-- Decode a 32-bit word as IEEE-754 binary32 (sign, 8-bit exponent,
23-bit mantissa; subnormals and specials included).  Finite values are
exact rationals. -/
def f32_from_word (w : ℕ) : F32 :=
  let s : ℕ := w / 2 ^ 31 % 2
  let e : ℕ := w / 2 ^ 23 % 2 ^ 8
  let m : ℕ := w % 2 ^ 23
  let sign : ℚ := if s = 1 then -1 else 1
  if e = 255 then
    if m = 0 then (if s = 1 then .negInf else .posInf) else .nanV
  else if e = 0 then
    .finite (sign * (m : ℚ) / 2 ^ 23 / 2 ^ 126)
  else
    .finite (sign * ((2 ^ 23 + m : ℕ) : ℚ) / 2 ^ 23 *
      (if e ≤ 127 then 1 / 2 ^ (127 - e) else (2 ^ (e - 127) : ℕ)))

/-- Largest finite float32, `np.finfo(np.float32).max = (2 - 2^-23) * 2^127`. -/
def f32_max : ℚ := (2 ^ 24 - 1) * 2 ^ 104

/-- `np.nan_to_num` with default arguments on a float32 value. -/
def nan_to_num : F32 → ℚ
  | .finite q => q
  | .posInf => f32_max
  | .negInf => -f32_max
  | .nanV => 0

/-- Little-endian 32-bit word from 4 bytes. -/
def word_of_bytes_le (b0 b1 b2 b3 : ℕ) : ℕ :=
  b0 + 2 ^ 8 * b1 + 2 ^ 16 * b2 + 2 ^ 24 * b3

/-- Group a byte list into consecutive little-endian 32-bit words
(`np.frombuffer(_, dtype=np.float32)`; a misaligned tail would make
numpy raise and is unreachable on aligned input). -/
def chunks4 : List ℕ → List ℕ
  | b0 :: b1 :: b2 :: b3 :: rest => word_of_bytes_le b0 b1 b2 b3 :: chunks4 rest
  | _ => []

/-- Embedding of `bytes_to_audio` from `src/src/audio/utils.py`
(float32 LE with `np.nan_to_num` scrubbing). -/
def f32_bytes_to_audio (bs : List ℕ) : List ℚ :=
  (chunks4 bs).map fun w => nan_to_num (f32_from_word w)

/-- Bitwise or with a disjoint high part is addition: if `a < 2 ^ n` then
`a ||| b * 2 ^ n = a + b * 2 ^ n`. -/
theorem lor_mul_pow_eq_add (b : ℕ) :
    ∀ (n a : ℕ), a < 2 ^ n → a ||| b * 2 ^ n = a + b * 2 ^ n := by
  intro n
  induction n with
  | zero =>
    intro a ha
    have h0 : a = 0 := by omega
    subst h0
    simp
  | succ n ih =>
    intro a ha
    have hpow : 2 ^ (n + 1) = 2 ^ n * 2 := pow_succ 2 n
    have hmod : b * 2 ^ (n + 1) % 2 = 0 := by
      rw [hpow, ← Nat.mul_assoc]
      exact Nat.mul_mod_left (b * 2 ^ n) 2
    have hdiv : b * 2 ^ (n + 1) / 2 = b * 2 ^ n := by
      rw [hpow, ← Nat.mul_assoc]
      exact Nat.mul_div_cancel (b * 2 ^ n) (by omega)
    have hhalf : a / 2 < 2 ^ n := by omega
    have hq : (a ||| b * 2 ^ (n + 1)) / 2 = a / 2 + b * 2 ^ n := by
      rw [Nat.or_div_two, hdiv]
      exact ih (a / 2) hhalf
    have hr : (a ||| b * 2 ^ (n + 1)) % 2 = a % 2 := by
      rcases Nat.mod_two_eq_zero_or_one a with h | h
      · have hne : (a ||| b * 2 ^ (n + 1)) % 2 ≠ 1 := by
          intro hc
          rcases Nat.or_mod_two_eq_one.mp hc with h1 | h1 <;> omega
        omega
      · have hone : (a ||| b * 2 ^ (n + 1)) % 2 = 1 :=
          Nat.or_mod_two_eq_one.mpr (Or.inl h)
        omega
    have hsplit := Nat.div_add_mod (a ||| b * 2 ^ (n + 1)) 2
    have hsplita := Nat.div_add_mod a 2
    omega

/-- The little-endian composition in the source equals the arithmetic
little-endian value `b0 + 256 * b1 + 65536 * b2` for genuine bytes. -/
theorem pcm24_compose_eq (b0 b1 b2 : ℕ)
    (h0 : b0 < 256) (h1 : b1 < 256) (h2 : b2 < 256) :
    pcm24_compose b0 b1 b2 = b0 + 256 * b1 + 65536 * b2 := by
  unfold pcm24_compose
  rw [Nat.shiftLeft_eq, Nat.shiftLeft_eq]
  rw [lor_mul_pow_eq_add b1 8 b0 (by omega)]
  rw [lor_mul_pow_eq_add b2 16 (b0 + b1 * 2 ^ 8) (by norm_num; omega)]
  norm_num
  ring

example : pcm24_decode_sample 0 0 0 = 0 := by
  norm_num [pcm24_decode_sample, pcm24_sign_extend, pcm24_compose]
example : f32_bytes_to_audio [0, 0, 128, 63] = [1] := by
  norm_num [f32_bytes_to_audio, chunks4, word_of_bytes_le, f32_from_word,
    nan_to_num]

/-! ## Per-channel ingestion of `GstreamerSource._on_new_sample`

Embedding of `_on_new_sample` from
`src/src/audio/sources/gstreamer_source.py`, per channel.  The method
appends the incoming bytes to the channel buffer, slices off
`aligned_buffer_size`-byte blocks while enough bytes are present (each
block is decoded with `bytes_to_audio`, corruption-scrubbed and pushed to
the barrier), and then — only when at least one block was extracted —
discards a leftover fragment that is non-empty and smaller than half a
block.  `normalize` is the identity in the source (its scaling line is
commented out). -/

/-- Corruption scrub: `audio_array[np.abs(audio_array) > 1000] = 0.0`. -/
def scrub_corrupt (xs : List ℚ) : List ℚ :=
  xs.map fun x => if |x| > 1000 then 0 else x

/-- The source's `normalize` returns its argument unchanged. -/
def gst_normalize (xs : List ℚ) : List ℚ := xs

/-- Result of the slicing `while` loop: frames pushed (in order), the
remaining buffer, and the `extracted_any` flag. -/
structure SliceResult where
  frames : List (List ℚ)
  rest : List ℕ
  extractedAny : Bool
  deriving DecidableEq

/-- Fuel-indexed unfolding of the `while len(data) >= aligned_buffer_size`
loop.  For `N > 0`, `fuel ≥ buf.length` iterations always suffice, so the
fuel never runs out at the call site below; for `N = 0` the Python loop
would not terminate (a configuration error, unreachable through the
orchestrator). -/
def sliceGo (N : ℕ) : ℕ → List ℕ → SliceResult
  | 0, buf => ⟨[], buf, false⟩
  | fuel + 1, buf =>
    if N ≤ buf.length then
      let r := sliceGo N fuel (buf.drop N)
      ⟨gst_normalize (scrub_corrupt (f32_bytes_to_audio (buf.take N))) ::
        r.frames, r.rest, true⟩
    else ⟨[], buf, false⟩

/-- Result of one `_on_new_sample` call on one channel: frames pushed to
the barrier, the new pending buffer, and how many bytes the
leftover-discard branch dropped. -/
structure IngestResult where
  frames : List (List ℚ)
  pending : List ℕ
  discarded : ℕ
  deriving DecidableEq

/-- One `_on_new_sample` call for a single channel.  `required` is
`self.required_buffer_size`; the method recomputes
`aligned_buffer_size = required // 4 * 4` and `max_leftover = aligned // 2`
each call. -/
def onNewSample (required : ℕ) (pending data : List ℕ) : IngestResult :=
  let buf := pending ++ data
  let aligned := required / 4 * 4
  let r := sliceGo aligned (buf.length + 1) buf
  if r.extractedAny ∧ 0 < r.rest.length ∧ r.rest.length < aligned / 2 then
    ⟨r.frames, [], r.rest.length⟩
  else
    ⟨r.frames, r.rest, 0⟩

/-- Feed a sequence of chunks through `_on_new_sample`, accumulating the
emitted frames and the discarded byte count. -/
def ingestGo (required : ℕ) (acc : IngestResult) : List (List ℕ) → IngestResult
  | [] => acc
  | c :: cs =>
    let r := onNewSample required acc.pending c
    ingestGo required ⟨acc.frames ++ r.frames, r.pending,
      acc.discarded + r.discarded⟩ cs

/-- Ingestion of a whole chunk sequence starting from an empty buffer. -/
def ingestAll (required : ℕ) (chunks : List (List ℕ)) : IngestResult :=
  ingestGo required ⟨[], [], 0⟩ chunks

/-- Byte conservation of the slicing loop: the emitted frames account for
`N` bytes each and the rest is untouched. -/
theorem sliceGo_length (N : ℕ) :
    ∀ (fuel : ℕ) (buf : List ℕ),
      (sliceGo N fuel buf).frames.length * N +
        (sliceGo N fuel buf).rest.length = buf.length := by
  intro fuel
  induction fuel with
  | zero => intro buf; simp [sliceGo]
  | succ fuel ih =>
    intro buf
    by_cases h : N ≤ buf.length
    · have hrec := ih (buf.drop N)
      simp only [sliceGo, if_pos h, List.length_cons, List.length_drop] at hrec ⊢
      rw [Nat.add_mul]
      omega
    · simp [sliceGo, if_neg h]

/-- With enough fuel the loop leaves fewer than `N` bytes. -/
theorem sliceGo_rest_lt (N : ℕ) (hN : 0 < N) :
    ∀ (fuel : ℕ) (buf : List ℕ), buf.length ≤ fuel →
      (sliceGo N fuel buf).rest.length < N := by
  intro fuel
  induction fuel with
  | zero =>
    intro buf hb
    simp only [sliceGo]
    omega
  | succ fuel ih =>
    intro buf hb
    by_cases h : N ≤ buf.length
    · have hrec := ih (buf.drop N) (by simp [List.length_drop]; omega)
      simpa only [sliceGo, if_pos h] using hrec
    · simp only [sliceGo, if_neg h]
      omega

/-- One `_on_new_sample` call that triggers no leftover-discard conserves
bytes and leaves less than one block pending. -/
theorem onNewSample_spec (required : ℕ) (h4 : 4 ∣ required)
    (hN : 0 < required) (pending data : List ℕ)
    (hd : (onNewSample required pending data).discarded = 0) :
    (onNewSample required pending data).frames.length * required +
        (onNewSample required pending data).pending.length =
      pending.length + data.length ∧
    (onNewSample required pending data).pending.length < required := by
  have halign : required / 4 * 4 = required := Nat.div_mul_cancel h4
  set buf := pending ++ data with hbuf
  have hbl : buf.length = pending.length + data.length :=
    List.length_append pending data
  have hlen := sliceGo_length required (buf.length + 1) buf
  have hlt := sliceGo_rest_lt required hN (buf.length + 1) buf (by omega)
  set s := sliceGo required (buf.length + 1) buf with hs
  have hcase : onNewSample required pending data =
      if s.extractedAny = true ∧ 0 < s.rest.length ∧
          s.rest.length < required / 2 then
        ⟨s.frames, [], s.rest.length⟩
      else ⟨s.frames, s.rest, 0⟩ := by
    unfold onNewSample
    rw [halign]
  rw [hcase] at hd ⊢
  by_cases hc : s.extractedAny = true ∧ 0 < s.rest.length ∧
      s.rest.length < required / 2
  · rw [if_pos hc] at hd
    exfalso
    dsimp only at hd
    omega
  · rw [if_neg hc] at hd ⊢
    dsimp only
    exact ⟨by omega, by omega⟩

/-- The accumulated discard count never decreases along ingestion. -/
theorem ingestGo_discarded_mono (required : ℕ) :
    ∀ (chunks : List (List ℕ)) (acc : IngestResult),
      acc.discarded ≤ (ingestGo required acc chunks).discarded := by
  intro chunks
  induction chunks with
  | nil => intro acc; simp [ingestGo]
  | cons c cs ih =>
    intro acc
    have := ih ⟨acc.frames ++ (onNewSample required acc.pending c).frames,
      (onNewSample required acc.pending c).pending,
      acc.discarded + (onNewSample required acc.pending c).discarded⟩
    simp only [ingestGo] at this ⊢
    omega

/-- Discard-free ingestion conserves bytes: frames account for `required`
bytes each, the pending buffer for the rest, and the pending buffer stays
below one block. -/
theorem ingestGo_spec (required : ℕ) (h4 : 4 ∣ required)
    (hN : 0 < required) :
    ∀ (chunks : List (List ℕ)) (acc : IngestResult),
      acc.pending.length < required →
      (ingestGo required acc chunks).discarded = 0 →
      (ingestGo required acc chunks).frames.length * required +
          (ingestGo required acc chunks).pending.length =
        acc.frames.length * required + acc.pending.length +
          (chunks.map List.length).sum ∧
      (ingestGo required acc chunks).pending.length < required := by
  intro chunks
  induction chunks with
  | nil =>
    intro acc hp _
    refine ⟨?_, by simpa [ingestGo] using hp⟩
    simp [ingestGo]
  | cons c cs ih =>
    intro acc hp hd
    set r := onNewSample required acc.pending c with hr
    set acc2 : IngestResult := ⟨acc.frames ++ r.frames, r.pending,
      acc.discarded + r.discarded⟩ with hacc2
    have hstep : ingestGo required acc (c :: cs) =
        ingestGo required acc2 cs := rfl
    rw [hstep] at hd ⊢
    have hmono := ingestGo_discarded_mono required cs acc2
    rw [hd] at hmono
    have hrd : r.discarded = 0 := by
      have hda : acc2.discarded = acc.discarded + r.discarded := rfl
      omega
    have hons := onNewSample_spec required h4 hN acc.pending c hrd
    rw [← hr] at hons
    have hpa : acc2.pending = r.pending := rfl
    have hih := ih acc2 (by rw [hpa]; exact hons.2) hd
    rcases hih with ⟨hih1, hih2⟩
    refine ⟨?_, hih2⟩
    rw [hih1]
    have hfa : acc2.frames.length = acc.frames.length + r.frames.length := by
      rw [hacc2]
      exact List.length_append _ _
    rw [hfa, hpa, Nat.add_mul]
    simp only [List.map_cons, List.sum_cons]
    omega

/-- Discard-free ingestion from an empty buffer: `k * N + r` input bytes
yield exactly `k` frames and `r` pending bytes. -/
theorem ingestAll_spec (required : ℕ) (h4 : 4 ∣ required)
    (hN : 0 < required) (chunks : List (List ℕ)) (k r : ℕ)
    (hd : (ingestAll required chunks).discarded = 0)
    (htot : (chunks.map List.length).sum = k * required + r)
    (hr : r < required) :
    (ingestAll required chunks).frames.length = k ∧
    (ingestAll required chunks).pending.length = r := by
  have hunfold : ingestAll required chunks =
      ingestGo required ⟨[], [], 0⟩ chunks := rfl
  rw [hunfold] at hd ⊢
  have h := ingestGo_spec required h4 hN chunks ⟨[], [], 0⟩ hN hd
  rcases h with ⟨h1, h2⟩
  rw [htot] at h1
  simp only [List.length_nil] at h1
  set F := (ingestGo required ⟨[], [], 0⟩ chunks).frames.length with hF
  set P := (ingestGo required ⟨[], [], 0⟩ chunks).pending.length with hP
  have hFk : F = k := by
    rcases Nat.lt_trichotomy F k with hlt | heq | hgt
    · exfalso
      have hle : (F + 1) * required ≤ k * required :=
        Nat.mul_le_mul_right required hlt
      rw [Nat.add_mul] at hle
      omega
    · exact heq
    · exfalso
      have hle : (k + 1) * required ≤ F * required :=
        Nat.mul_le_mul_right required hgt
      rw [Nat.add_mul] at hle
      omega
  refine ⟨hFk, ?_⟩
  rw [hFk] at h1
  omega

/-! ## The synchronization barrier `MultiChannelQueue`

Embedding of `MultiChannelQueue` from `src/src/audio/utils.py` (this is
the class the production `GstreamerSource` instantiates; the sibling in
`src/src/audio/multi_channel_queue.py` has the same `put` body wrapped in
`with self.lock`).  A channel queue is a FIFO list (enqueue at the tail,
dequeue at the head) and the ready queue is a FIFO of assembled
frame-sets.  `num_channels` equals `channel_queues.length` after
construction. -/

/-- Barrier state: one FIFO per channel plus the FIFO of ready
frame-sets. -/
structure MCQ (α : Type) where
  channel_queues : List (List α)
  ready : List (List α)
  deriving DecidableEq

/-- A freshly constructed `MultiChannelQueue(num_channels)`. -/
def MCQ.init (α : Type) (num_channels : ℕ) : MCQ α :=
  ⟨List.replicate num_channels [], []⟩

/-- The statement `self.channel_queues[channel_id].put(data)` (appends at
the FIFO tail; an out-of-range `channel_id` would raise `IndexError` in
Python and is excluded by hypothesis wherever it matters). -/
def MCQ.enqChannel (s : MCQ α) (c : ℕ) (d : α) : MCQ α :=
  { s with channel_queues := s.channel_queues.modify (· ++ [d]) c }

/-- The check `all(not q.empty() for q in self.channel_queues)`. -/
def MCQ.allNonEmpty (s : MCQ α) : Bool :=
  s.channel_queues.all fun q => !q.isEmpty

/-- The comprehension
`[self.channel_queues[i].get() for i in range(self.num_channels)]`,
reading one frame from the head of each channel FIFO in channel-id order
(only ever evaluated under an `allNonEmpty` guard, where every head
exists). -/
def MCQ.frontFrame [Inhabited α] (s : MCQ α) : List α :=
  s.channel_queues.map List.headI

/-- The state after popping one frame off every channel FIFO. -/
def MCQ.popAll (s : MCQ α) : MCQ α :=
  { s with channel_queues := s.channel_queues.map List.tail }

/-- Sequential (single-caller) semantics of `MultiChannelQueue.put`:
append to the channel FIFO, and if every channel FIFO is non-empty, pop
one frame from each (channel-id order) and push the frame-set to the
ready queue. -/
def MCQ.put [Inhabited α] (s : MCQ α) (c : ℕ) (d : α) : MCQ α :=
  let s1 := s.enqChannel c d
  if s1.allNonEmpty then
    { channel_queues := s1.popAll.channel_queues,
      ready := s1.ready ++ [s1.frontFrame] }
  else s1

/-- A sequence of `put` calls. -/
def MCQ.putAll [Inhabited α] (s : MCQ α) : List (ℕ × α) → MCQ α
  | [] => s
  | (c, d) :: rest => (s.put c d).putAll rest

/-- Unfolding of `put` when the all-channels check succeeds. -/
theorem MCQ.put_pos [Inhabited α] (s : MCQ α) (c : ℕ) (d : α)
    (h : (s.enqChannel c d).allNonEmpty = true) :
    s.put c d =
      { channel_queues := (s.enqChannel c d).popAll.channel_queues,
        ready := (s.enqChannel c d).ready ++
          [(s.enqChannel c d).frontFrame] } := by
  simp only [MCQ.put]
  rw [if_pos h]

/-- Unfolding of `put` when some channel FIFO is still empty. -/
theorem MCQ.put_neg [Inhabited α] (s : MCQ α) (c : ℕ) (d : α)
    (h : ¬(s.enqChannel c d).allNonEmpty = true) :
    s.put c d = s.enqChannel c d := by
  simp only [MCQ.put]
  rw [if_neg h]

/-- `enqChannel` touches neither the ready queue nor the FIFO count. -/
theorem MCQ.enqChannel_length (s : MCQ α) (c : ℕ) (d : α) :
    (s.enqChannel c d).channel_queues.length = s.channel_queues.length ∧
    (s.enqChannel c d).ready = s.ready := by
  constructor
  · simp [MCQ.enqChannel]
  · rfl

/-- `put` preserves the number of channel FIFOs. -/
theorem MCQ.put_channels_length [Inhabited α] (s : MCQ α) (c : ℕ) (d : α) :
    (s.put c d).channel_queues.length = s.channel_queues.length := by
  by_cases h : (s.enqChannel c d).allNonEmpty = true
  · rw [MCQ.put_pos s c d h]
    simp [MCQ.popAll, MCQ.enqChannel]
  · rw [MCQ.put_neg s c d h]
    exact (MCQ.enqChannel_length s c d).1

/-- Every frame-set `put` appends to the ready queue has exactly one
entry per channel FIFO. -/
theorem MCQ.put_ready_shape [Inhabited α] (s : MCQ α) (c : ℕ) (d : α) :
    (∀ fs ∈ (s.put c d).ready,
        fs ∈ s.ready ∨ fs.length = s.channel_queues.length) := by
  intro fs hfs
  by_cases h : (s.enqChannel c d).allNonEmpty = true
  · rw [MCQ.put_pos s c d h] at hfs
    simp only [(MCQ.enqChannel_length s c d).2] at hfs
    rcases List.mem_append.mp hfs with hin | hin
    · exact Or.inl hin
    · right
      simp only [List.mem_singleton] at hin
      subst hin
      simp [MCQ.frontFrame, MCQ.enqChannel]
  · rw [MCQ.put_neg s c d h] at hfs
    exact Or.inl hfs

/-- Sequential invariant: starting from a state whose ready frame-sets
all have one entry per channel, any sequence of `put` calls keeps every
ready frame-set at exactly `C` entries and the FIFO count at `C`. -/
theorem MCQ.putAll_ready_length [Inhabited α] (C : ℕ) :
    ∀ (ops : List (ℕ × α)) (s : MCQ α),
      s.channel_queues.length = C →
      (∀ fs ∈ s.ready, fs.length = C) →
      (∀ fs ∈ (s.putAll ops).ready, fs.length = C) ∧
        (s.putAll ops).channel_queues.length = C := by
  intro ops
  induction ops with
  | nil => intro s hc hr; exact ⟨hr, hc⟩
  | cons p rest ih =>
    intro s hc hr
    rcases p with ⟨c, d⟩
    have hstep : s.putAll ((c, d) :: rest) = (s.put c d).putAll rest := rfl
    rw [hstep]
    apply ih
    · rw [MCQ.put_channels_length]
      exact hc
    · intro fs hfs
      rcases MCQ.put_ready_shape s c d fs hfs with hin | hlen
      · exact hr fs hin
      · rw [hlen]
        exact hc

/-! ## Interleaving semantics of the unlocked `put`

`src/src/audio/utils.py` keeps no lock around `put`, although the class
docstring promises "Methods of this class are thread safe" and the
sibling implementation in `src/src/audio/multi_channel_queue.py` wraps
the identical body in `with self.lock`.  Under true concurrency each
`queue.Queue` operation is individually atomic but the check-and-pop
sequence is not.  A thread executing `put(c, d)` therefore performs, as
separate atomic actions: the append `channel_queues[c].put(d)`, the
`all(...)` check (coarsened here to one atomic read, which only removes
interleavings and so only makes the model more favourable to the code),
one `channel_queues[i].get()` per channel in channel-id order (blocking
when the queue is empty), and the final `ready.put(frame)`. -/

/-- Program counter of one thread running a sequence of `put` calls:
`idle` between calls, `checking` after the append, `popping i acc` while
collecting `acc` from channels `< i`.  Each constructor carries the
remaining `(channel, frame)` calls. -/
inductive PutPC (α : Type) where
  | idle (rest : List (ℕ × α))
  | checking (rest : List (ℕ × α))
  | popping (i : ℕ) (acc : List α) (rest : List (ℕ × α))
  deriving DecidableEq

/-- The atomic `channel_queues[i].get()`: `none` when the FIFO is empty
(the caller blocks), otherwise the head and the shrunk state. -/
def MCQ.deqChannel (s : MCQ α) (i : ℕ) : Option (α × MCQ α) :=
  match s.channel_queues.getD i [] with
  | [] => none
  | x :: _ =>
    some (x, { s with channel_queues := s.channel_queues.modify List.tail i })

/-- Whole-system configuration: the shared queue and each thread's
program counter. -/
structure RaceConfig (α : Type) where
  shared : MCQ α
  threads : List (PutPC α)
  deriving DecidableEq

/-- The configurations thread `t` can atomically step to, one per enabled
micro-action of the unlocked `put` body. -/
def threadSteps (C : ℕ) (cfg : RaceConfig α) (t : ℕ) : List (RaceConfig α) :=
  match cfg.threads.getD t (.idle []) with
  | .idle [] => []
  | .idle ((c, d) :: rest) =>
    [⟨cfg.shared.enqChannel c d, cfg.threads.set t (.checking rest)⟩]
  | .checking rest =>
    if cfg.shared.allNonEmpty then
      [⟨cfg.shared, cfg.threads.set t (.popping 0 [] rest)⟩]
    else
      [⟨cfg.shared, cfg.threads.set t (.idle rest)⟩]
  | .popping i acc rest =>
    if i < C then
      match cfg.shared.deqChannel i with
      | none => []
      | some (x, s2) =>
        [⟨s2, cfg.threads.set t (.popping (i + 1) (acc ++ [x]) rest)⟩]
    else
      [⟨{ cfg.shared with ready := cfg.shared.ready ++ [acc] },
        cfg.threads.set t (.idle rest)⟩]

/-- All configurations reachable in one atomic micro-step by any thread. -/
def raceSuccs (C : ℕ) (cfg : RaceConfig α) : List (RaceConfig α) :=
  (List.range cfg.threads.length).foldr
    (fun t acc => threadSteps C cfg t ++ acc) []

/-- One interleaved micro-step. -/
def RaceStep (C : ℕ) (a b : RaceConfig α) : Prop := b ∈ raceSuccs C a

instance raceStepDecidable [DecidableEq α] (C : ℕ) (a b : RaceConfig α) :
    Decidable (RaceStep C a b) :=
  inferInstanceAs (Decidable (b ∈ raceSuccs C a))

/-- Reachability through interleaved micro-steps. -/
def RaceReachable (C : ℕ) (a b : RaceConfig α) : Prop :=
  Relation.ReflTransGen (RaceStep C) a b

/-! ## The angle-of-arrival estimator

Embedding of `AngleOfArrivalEstimator.estimate` from
`src/src/audio/angle_of_arrival.py`.  The raw bearing
`np.rad2deg(np.arctan2(Y, X))` is transcendental and is abstracted as an
uninterpreted parameter `rawAngle` of the embedding (every claim under
audit concerns the silence guard and the smoothing update, both of which
are arithmetic on the raw angle, not the trigonometry); the `% 360`
applied to it in the source is kept explicit.  The silence threshold is
the literal `1e-8` (embedded as the exact decimal `1 / 10^8`; the nearest
binary double differs from it only in the 17th significant digit and on
no input relevant here). -/

/-- Mutable state of `AngleOfArrivalEstimator`: the smoothing factor and
the last smoothed angle (`None` before the first valid estimate). -/
structure AngleOfArrivalEstimator where
  smoothing : ℚ
  theta_smooth : Option ℚ
  deriving DecidableEq

/-- One `estimate(energies)` call: the returned value together with the
estimator state after the call. -/
def AngleOfArrivalEstimator.estimate (rawAngle : List ℚ → ℚ)
    (e : AngleOfArrivalEstimator) (energies : List ℚ) :
    AngleOfArrivalEstimator × Option ℚ :=
  if energies.sum < 1 / 10 ^ 8 then (e, e.theta_smooth)
  else
    let theta_est := pymod (rawAngle energies) 360
    match e.theta_smooth with
    | none => ({ e with theta_smooth := some theta_est }, some theta_est)
    | some prev =>
      let d := pymod (theta_est - prev + 540) 360 - 180
      let updated := pymod (prev + e.smoothing * d) 360
      ({ e with theta_smooth := some updated }, some updated)

/-! ## Source lifecycle and the drain loop

Embedding of `Source.start` / `Source.stop` from
`src/src/audio/audio.py`.  `Source.__init__` creates a `threading.Thread`
and sets `_continue = False`; `start` returns immediately when
`_continue` is already true, otherwise sets it and starts the thread;
`stop` clears `_continue` and joins the thread.  Python's
`threading.Thread` raises `RuntimeError` when `join()` is called on a
thread that was never started, and when `start()` is called twice; a
mutating call that raises is modelled as the mutated state paired with
`some errorMessage`. -/

/-- Lifecycle of a `threading.Thread` as far as `start`/`join` see it. -/
inductive ThreadState where
  | unstarted
  | started
  deriving DecidableEq

/-- `threading.Thread.start()`. -/
def threadStart : ThreadState → Except String ThreadState
  | .unstarted => .ok .started
  | .started => .error "threads can only be started once"

/-- `threading.Thread.join()`; with `_continue` already cleared the
`_run` loop exits within one poll interval, so a join on a started
thread returns. -/
def threadJoin : ThreadState → Except String ThreadState
  | .unstarted => .error "cannot join thread before it is started"
  | .started => .ok .started

/-- The fields of `Source` that `start`/`stop` read and write. -/
structure SourceState where
  continueFlag : Bool
  thread : ThreadState
  deriving DecidableEq

/-- The state `Source.__init__` builds. -/
def sourceInit : SourceState := ⟨false, .unstarted⟩

/-- `Source.start`: no-op when `_continue` is set, else set it and start
the worker thread. -/
def Source_start (s : SourceState) : SourceState × Option String :=
  if s.continueFlag then (s, none)
  else
    match threadStart s.thread with
    | .ok t => (⟨true, t⟩, none)
    | .error msg => (⟨true, s.thread⟩, some msg)

/-- `Source.stop`: clear `_continue` and join the worker thread. -/
def Source_stop (s : SourceState) : SourceState × Option String :=
  match threadJoin s.thread with
  | .ok t => (⟨false, t⟩, none)
  | .error msg => (⟨false, s.thread⟩, some msg)

/-- `SourceInterface._emit`: invoke the registered callback if any; no
exception handling around the call. -/
def emit {α ε : Type} (callback : Option (α → Except ε Unit)) (data : α) :
    Except ε Unit :=
  match callback with
  | none => .ok ()
  | some cb => cb data

/-- The inner loop of `GstreamerSource._run`
(`while self._data_queue.has_data() and self._continue: self._emit(...)`):
deliver queued frame-sets in order through `emit`; an exception raised by
the callback propagates out of `_emit` and `_run`, ending the loop (and
killing the drain thread).  Returns the frame-sets on which the callback
was invoked, and the propagated exception if one was raised. -/
def drainQueue {α ε : Type} (callback : Option (α → Except ε Unit)) :
    List α → List α × Option ε
  | [] => ([], none)
  | fs :: rest =>
    match emit callback fs with
    | .ok _ =>
      let r := drainQueue callback rest
      (fs :: r.1, r.2)
    | .error exc => ([fs], some exc)

/-! ## Claim theorems -/

/-- C4: decoding PCM24_LE_SIGNED composes each 3-byte little-endian group
into a 24-bit unsigned integer, subtracts `2^24` when that value is
`≥ 2^23`, and divides by `2^23`; the groups `[0,0,0]`,
`[0xFF,0xFF,0x7F]`, `[0,0,0x80]`, `[0xFF,0xFF,0xFF]` decode to `0`,
`(2^23-1)/2^23`, `-1` and `-1/2^23`. -/
theorem c4_pcm24_decode (b0 b1 b2 : ℕ)
    (h0 : b0 < 256) (h1 : b1 < 256) (h2 : b2 < 256) :
    pcm24_decode_sample b0 b1 b2 =
      ((if (2 : ℤ) ^ 23 ≤ (b0 : ℤ) + 256 * b1 + 65536 * b2 then
          (b0 : ℤ) + 256 * b1 + 65536 * b2 - 2 ^ 24
        else (b0 : ℤ) + 256 * b1 + 65536 * b2) : ℚ) / 2 ^ 23 ∧
    pcm24_decode_sample 0 0 0 = 0 ∧
    pcm24_decode_sample 255 255 127 = (2 ^ 23 - 1) / 2 ^ 23 ∧
    pcm24_decode_sample 0 0 128 = -1 ∧
    pcm24_decode_sample 255 255 255 = -(1 / 2 ^ 23) := by
  refine ⟨?_, ?_, ?_, ?_, ?_⟩
  · unfold pcm24_decode_sample pcm24_sign_extend
    rw [pcm24_compose_eq b0 b1 b2 h0 h1 h2]
    have hcond : (0x800000 ≤ b0 + 256 * b1 + 65536 * b2) ↔
        ((2 : ℤ) ^ 23 ≤ (b0 : ℤ) + 256 * b1 + 65536 * b2) := by
      constructor <;> intro hc <;> [push_cast; skip] <;> omega
    by_cases hc : 0x800000 ≤ b0 + 256 * b1 + 65536 * b2
    · rw [if_pos hc, if_pos (hcond.mp hc)]
      push_cast
      ring
    · rw [if_neg hc, if_neg (fun hzc => hc (hcond.mpr hzc))]
      push_cast
      ring
  · have hv : pcm24_compose 0 0 0 = 0 := by decide
    norm_num [pcm24_decode_sample, pcm24_sign_extend, hv]
  · have hv : pcm24_compose 255 255 127 = 8388607 := by decide
    norm_num [pcm24_decode_sample, pcm24_sign_extend, hv]
  · have hv : pcm24_compose 0 0 128 = 8388608 := by decide
    norm_num [pcm24_decode_sample, pcm24_sign_extend, hv]
  · have hv : pcm24_compose 255 255 255 = 16777215 := by decide
    norm_num [pcm24_decode_sample, pcm24_sign_extend, hv]

/-- Witness for C4 at the concrete byte group `(1, 2, 3)`. -/
theorem c4_pcm24_decode_witness :
    (1 : ℕ) < 256 ∧ (2 : ℕ) < 256 ∧ (3 : ℕ) < 256 ∧
    pcm24_decode_sample 1 2 3 =
      ((if (2 : ℤ) ^ 23 ≤ (1 : ℤ) + 256 * 2 + 65536 * 3 then
          (1 : ℤ) + 256 * 2 + 65536 * 3 - 2 ^ 24
        else (1 : ℤ) + 256 * 2 + 65536 * 3) : ℚ) / 2 ^ 23 :=
  ⟨by norm_num, by norm_num, by norm_num,
    (c4_pcm24_decode 1 2 3 (by norm_num) (by norm_num) (by norm_num)).1⟩

/-- C5 counterexample: the +Infinity bit pattern `[0x00,0x00,0x80,0x7F]`
decodes through `np.nan_to_num` to the largest finite float32, not to
`0.0` as the claim states. -/
theorem c5_counterexample :
    f32_bytes_to_audio [0, 0, 128, 127] = [f32_max] ∧
    f32_max = 340282346638528859811704183484516925440 ∧
    f32_max ≠ 0 := by
  refine ⟨?_, by norm_num [f32_max], by norm_num [f32_max]⟩
  norm_num [f32_bytes_to_audio, chunks4, word_of_bytes_le, f32_from_word,
    nan_to_num]

/-- C5 (amended): FLOAT32_LE decoding replaces NaN with `0.0` and
the two infinities with `±f32_max` (the extreme finite float32 values,
numpy's `nan_to_num` defaults), and leaves finite values unchanged; in
particular the NaN pattern `[0,0,0xC0,0x7F]` decodes to `0`, the
-Infinity pattern `[0,0,0x80,0xFF]` to `-f32_max`, and the finite
pattern `[0,0,0x80,0x3F]` (`1.0f`) to `1`. -/
theorem c5_nan_inf_scrub :
    nan_to_num .nanV = 0 ∧
    (∀ q : ℚ, nan_to_num (.finite q) = q) ∧
    nan_to_num .posInf = f32_max ∧
    nan_to_num .negInf = -f32_max ∧
    f32_bytes_to_audio [0, 0, 192, 127] = [0] ∧
    f32_bytes_to_audio [0, 0, 128, 255] = [-f32_max] ∧
    f32_bytes_to_audio [0, 0, 128, 63] = [1] := by
  refine ⟨rfl, fun q => rfl, rfl, rfl, ?_, ?_, ?_⟩ <;>
    norm_num [f32_bytes_to_audio, chunks4, word_of_bytes_le, f32_from_word,
      nan_to_num]

/-- C7: an `estimate` call whose total energy is below the silence
threshold returns the previous smoothed angle (or no estimate) and
leaves the estimator state unchanged. -/
theorem c7_silence_preserves_state (rawAngle : List ℚ → ℚ)
    (e : AngleOfArrivalEstimator) (energies : List ℚ)
    (h : energies.sum < 1 / 10 ^ 8) :
    AngleOfArrivalEstimator.estimate rawAngle e energies =
      (e, e.theta_smooth) := by
  unfold AngleOfArrivalEstimator.estimate
  rw [if_pos h]

/-- Witness for C7 on all-zero energies with a previous estimate. -/
theorem c7_silence_witness :
    ([(0 : ℚ), 0].sum < 1 / 10 ^ 8) ∧
    AngleOfArrivalEstimator.estimate (fun _ => 7) ⟨4 / 5, some 123⟩ [0, 0] =
      (⟨4 / 5, some 123⟩, some 123) :=
  ⟨by norm_num, c7_silence_preserves_state (fun _ => 7) ⟨4 / 5, some 123⟩
    [0, 0] (by norm_num)⟩

/-- C6 counterexample: with previous angle `0` and raw angle `180`, the
shortest-difference term is `d = -180`, which lies outside the claimed
interval `(-180, 180]` (Python floor-mod puts `d` in `[-180, 180)`);
the smoothing update with `α = 4/5` then lands at `216`. -/
theorem c6_counterexample :
    pymod ((180 : ℚ) - 0 + 540) 360 - 180 = -180 ∧
    ¬(-180 < pymod ((180 : ℚ) - 0 + 540) 360 - 180) ∧
    (AngleOfArrivalEstimator.estimate (fun _ => 180) ⟨4 / 5, some 0⟩
        [1]).2 = some 216 := by
  have hd : pymod ((180 : ℚ) - 0 + 540) 360 - 180 = -180 := by
    norm_num [pymod]
  refine ⟨hd, by rw [hd]; norm_num, ?_⟩
  norm_num [AngleOfArrivalEstimator.estimate, pymod]

/-- C6 (amended): when a previous smoothed angle exists and the silence
guard does not trigger, `estimate` returns and stores
`(previous + α·d) mod 360` where
`d = ((raw - previous + 540) mod 360) - 180` and `raw` is the already
`mod 360`-reduced bearing; `d` always lies in `[-180, 180)` (not
`(-180, 180]`), every `mod 360` value lies in `[0, 360)`, and with no
previous estimate the raw angle is adopted directly. -/
theorem c6_smoothing_update (rawAngle : List ℚ → ℚ)
    (e : AngleOfArrivalEstimator) (prev : ℚ) (energies : List ℚ)
    (hprev : e.theta_smooth = some prev)
    (hloud : ¬ energies.sum < 1 / 10 ^ 8) :
    ((AngleOfArrivalEstimator.estimate rawAngle e energies).2 =
        some (pymod (prev + e.smoothing *
          (pymod (pymod (rawAngle energies) 360 - prev + 540) 360 - 180))
          360) ∧
      (AngleOfArrivalEstimator.estimate rawAngle e energies).1.theta_smooth =
        some (pymod (prev + e.smoothing *
          (pymod (pymod (rawAngle energies) 360 - prev + 540) 360 - 180))
          360)) ∧
    (-180 ≤ pymod (pymod (rawAngle energies) 360 - prev + 540) 360 - 180 ∧
      pymod (pymod (rawAngle energies) 360 - prev + 540) 360 - 180 < 180) ∧
    (∀ x : ℚ, 0 ≤ pymod x 360 ∧ pymod x 360 < 360) ∧
    (∀ e2 : AngleOfArrivalEstimator, e2.theta_smooth = none →
      (AngleOfArrivalEstimator.estimate rawAngle e2 energies).2 =
        some (pymod (rawAngle energies) 360)) := by
  refine ⟨?_, ⟨?_, ?_⟩, ?_, ?_⟩
  · unfold AngleOfArrivalEstimator.estimate
    rw [if_neg hloud, hprev]
    exact ⟨rfl, rfl⟩
  · have := pymod_nonneg (pymod (rawAngle energies) 360 - prev + 540) 360
      (by norm_num)
    linarith
  · have := pymod_lt (pymod (rawAngle energies) 360 - prev + 540) 360
      (by norm_num)
    linarith
  · intro x
    exact ⟨pymod_nonneg x 360 (by norm_num), pymod_lt x 360 (by norm_num)⟩
  · intro e2 h2n
    simp only [AngleOfArrivalEstimator.estimate, if_neg hloud, h2n]

/-- Witness for C6 (amended) at previous angle `10`, raw angle `90`,
`α = 1/2`: `d = 80` and the update lands at `50`. -/
theorem c6_smoothing_witness :
    (⟨1 / 2, some 10⟩ : AngleOfArrivalEstimator).theta_smooth = some 10 ∧
    ¬ ([(1 : ℚ)].sum < 1 / 10 ^ 8) ∧
    (AngleOfArrivalEstimator.estimate (fun _ => 90) ⟨1 / 2, some 10⟩
        [1]).2 = some 50 := by
  refine ⟨rfl, by norm_num, ?_⟩
  have h := c6_smoothing_update (fun _ => 90) ⟨1 / 2, some 10⟩ 10 [1]
    rfl (by norm_num)
  rw [h.1.1]
  norm_num [pymod]

/-- A downstream consumer callback that raises on the frame-set `0` and
returns normally on every other input (exception token `5`). -/
def failingCb : ℕ → Except ℕ Unit := fun x =>
  if x = 0 then .error 5 else .ok ()

/-- C8 counterexample: with frame-sets `[1, 0, 2]` queued and a consumer
that raises on `0`, the drain loop delivers `1`, raises on `0`, and
never delivers `2` — the exception terminates the loop instead of being
caught and logged. -/
theorem c8_counterexample :
    drainQueue (some failingCb) [1, 0, 2] = ([1, 0], some 5) ∧
    2 ∉ (drainQueue (some failingCb) [1, 0, 2]).1 := by
  refine ⟨rfl, ?_⟩
  decide

/-- All-ok delivery: when the callback raises on no queued frame-set,
the drain loop delivers every frame-set in order. -/
theorem drainQueue_all_ok {α ε : Type} (cb : α → Except ε Unit) :
    ∀ l : List α, (∀ x ∈ l, cb x = .ok ()) →
      drainQueue (some cb) l = (l, none) := by
  intro l
  induction l with
  | nil => intro _; rfl
  | cons a rest ih =>
    intro hok
    have ha : cb a = .ok () := hok a (List.mem_cons_self a rest)
    have hrest := ih fun x hx => hok x (List.mem_cons_of_mem a hx)
    simp only [drainQueue, emit, ha, hrest]

/-- C8 (amended): a consumer exception is not caught — it propagates out
of `_emit`, the drain loop stops at the raising frame-set, and the
frame-sets queued after it are not delivered; when the callback never
raises, every queued frame-set is delivered in order. -/
theorem c8_exception_kills_drain {α ε : Type} (cb : α → Except ε Unit)
    (pre post : List α) (fs : α) (exc : ε)
    (hok : ∀ x ∈ pre, cb x = .ok ())
    (herr : cb fs = .error exc) :
    drainQueue (some cb) (pre ++ fs :: post) = (pre ++ [fs], some exc) ∧
    (∀ l : List α, (∀ x ∈ l, cb x = .ok ()) →
      drainQueue (some cb) l = (l, none)) := by
  refine ⟨?_, drainQueue_all_ok cb⟩
  induction pre with
  | nil => simp [drainQueue, emit, herr]
  | cons a rest ih =>
    have ha : cb a = .ok () := hok a (List.mem_cons_self a rest)
    have hrest := ih fun x hx => hok x (List.mem_cons_of_mem a hx)
    simp [drainQueue, emit, ha, hrest]

/-- Witness for C8 (amended): one delivered frame-set before the raising
one, one stranded after it. -/
theorem c8_exception_witness :
    (∀ x ∈ [1], failingCb x = .ok ()) ∧ failingCb 0 = .error 5 ∧
    drainQueue (some failingCb) ([1] ++ 0 :: [2]) = ([1] ++ [0], some 5) := by
  have hok : ∀ x ∈ [1], failingCb x = .ok () := by
    intro x hx
    simp only [List.mem_singleton] at hx
    subst hx
    rfl
  exact ⟨hok, rfl,
    (c8_exception_kills_drain failingCb [1] [2] 0 5 hok rfl).1⟩

/-- C9 counterexample: `stop()` on a source that was never started is
not a no-op — `Thread.join` raises
`RuntimeError: cannot join thread before it is started`. -/
theorem c9_counterexample :
    Source_stop sourceInit =
      (⟨false, .unstarted⟩, some "cannot join thread before it is started") ∧
    (Source_stop sourceInit).2 ≠ none := by
  refine ⟨rfl, ?_⟩
  intro h
  simpa [Source_stop, sourceInit, threadJoin] using h

/-- C9 (amended): `start()` while running is a no-op, and `stop()` on a
stopped source whose thread has been started is a no-op; but `stop()` on
a source whose thread was never started raises `RuntimeError` from
`Thread.join` (while still clearing `_continue`). -/
theorem c9_lifecycle (s : SourceState) :
    (s.continueFlag = true → Source_start s = (s, none)) ∧
    (s.continueFlag = false → s.thread = .started →
      Source_stop s = (s, none)) ∧
    (s.thread = .unstarted →
      (Source_stop s).1 = ⟨false, s.thread⟩ ∧
      (Source_stop s).2 = some "cannot join thread before it is started") := by
  refine ⟨?_, ?_, ?_⟩
  · intro h
    simp [Source_start, h]
  · intro hc ht
    rcases s with ⟨cf, th⟩
    simp only at hc ht
    subst hc
    subst ht
    rfl
  · intro ht
    rcases s with ⟨cf, th⟩
    simp only at ht
    subst ht
    exact ⟨rfl, rfl⟩

/-- Witness for C9 (amended) at the three concrete states. -/
theorem c9_lifecycle_witness :
    Source_start ⟨true, .started⟩ = (⟨true, .started⟩, none) ∧
    Source_stop ⟨false, .started⟩ = (⟨false, .started⟩, none) ∧
    (Source_stop sourceInit).2 =
      some "cannot join thread before it is started" :=
  ⟨(c9_lifecycle ⟨true, .started⟩).1 rfl,
    (c9_lifecycle ⟨false, .started⟩).2.1 rfl rfl,
    ((c9_lifecycle sourceInit).2.2 rfl).2⟩

/-- Every sample surviving the corruption scrub is bounded by 1000. -/
theorem scrub_corrupt_bound (l : List ℚ) :
    ∀ x ∈ scrub_corrupt l, |x| ≤ 1000 := by
  intro x hx
  rcases List.mem_map.mp hx with ⟨y, _, hy⟩
  by_cases hb : |y| > 1000
  · rw [← hy, if_pos hb]
    norm_num
  · rw [← hy, if_neg hb]
    linarith [not_lt.mp hb]

/-- Every frame the slicing loop emits has been corruption-scrubbed. -/
theorem sliceGo_frames_bound (N : ℕ) :
    ∀ (fuel : ℕ) (buf : List ℕ),
      ∀ fs ∈ (sliceGo N fuel buf).frames, ∀ x ∈ fs, |x| ≤ 1000 := by
  intro fuel
  induction fuel with
  | zero => intro buf fs hfs; simp [sliceGo] at hfs
  | succ fuel ih =>
    intro buf fs hfs
    by_cases h : N ≤ buf.length
    · simp only [sliceGo, if_pos h] at hfs
      rcases List.mem_cons.mp hfs with hh | ht
      · subst hh
        exact scrub_corrupt_bound (f32_bytes_to_audio (buf.take N))
      · exact ih (buf.drop N) fs ht
    · simp only [sliceGo, if_neg h] at hfs
      simp at hfs

/-- C10: in the production GStreamer source every decoded frame is
scrubbed before being pushed to the barrier — each sample with
`|s| > 1000` becomes `0.0` — so every pushed frame only holds samples
with `|s| ≤ 1000`, and frames whose samples are all within the bound
pass through the scrub unchanged. -/
theorem c10_corruption_scrub :
    (∀ (required : ℕ) (pending data : List ℕ),
      ∀ fs ∈ (onNewSample required pending data).frames,
        ∀ x ∈ fs, |x| ≤ 1000) ∧
    (∀ l : List ℚ, (∀ x ∈ l, |x| ≤ 1000) → scrub_corrupt l = l) ∧
    (∀ (l : List ℚ) (x : ℚ), x ∈ scrub_corrupt l → |x| ≤ 1000) := by
  refine ⟨?_, ?_, fun l x hx => scrub_corrupt_bound l x hx⟩
  · intro required pending data fs hfs
    have hbound := sliceGo_frames_bound (required / 4 * 4)
      ((pending ++ data).length + 1) (pending ++ data)
    unfold onNewSample at hfs
    by_cases hc : (sliceGo (required / 4 * 4)
        ((pending ++ data).length + 1) (pending ++ data)).extractedAny =
          true ∧
        0 < (sliceGo (required / 4 * 4) ((pending ++ data).length + 1)
          (pending ++ data)).rest.length ∧
        (sliceGo (required / 4 * 4) ((pending ++ data).length + 1)
          (pending ++ data)).rest.length < required / 4 * 4 / 2
    · rw [if_pos hc] at hfs
      exact hbound fs hfs
    · rw [if_neg hc] at hfs
      exact hbound fs hfs
  · intro l
    induction l with
    | nil => intro _; rfl
    | cons a t iht =>
      intro hl
      have ha : ¬ |a| > 1000 := not_lt.mpr (hl a (List.mem_cons_self a t))
      have ht := iht fun x hx => hl x (List.mem_cons_of_mem a hx)
      simp only [scrub_corrupt, List.map_cons] at ht ⊢
      rw [if_neg ha, ht]

/-- Witness for C10: an in-range frame passes the scrub unchanged. -/
theorem c10_corruption_scrub_witness :
    (∀ x ∈ [(5 : ℚ), -3, 1000], |x| ≤ 1000) ∧
    scrub_corrupt [5, -3, 1000] = [5, -3, 1000] := by
  have hb : ∀ x ∈ [(5 : ℚ), -3, 1000], |x| ≤ 1000 := by
    intro x hx
    simp only [List.mem_cons, List.mem_singleton] at hx
    rcases hx with h | h | h | h <;> first
      | (subst h; rw [abs_le]; norm_num)
      | exact absurd h (List.not_mem_nil x)
  exact ⟨hb, c10_corruption_scrub.2.1 [5, -3, 1000] hb⟩

/-- C2: sequentially, every frame-set the barrier pushes has length `C`,
its entries are the heads of the channel FIFOs in channel-id order
`0..C-1` popped at assembly time, and a frame-set is assembled by a
`put` exactly when, after the append, every channel FIFO is
non-empty. -/
theorem c2_frameset_shape (C : ℕ) (ops : List (ℕ × List ℚ))
    (hops : ∀ p ∈ ops, p.1 < C) :
    (∀ fs ∈ ((MCQ.init (List ℚ) C).putAll ops).ready, fs.length = C) ∧
    (∀ (s : MCQ (List ℚ)) (c : ℕ) (d : List ℚ),
      ((s.enqChannel c d).allNonEmpty = true →
        s.put c d =
          { channel_queues :=
              (s.enqChannel c d).channel_queues.map List.tail,
            ready := s.ready ++
              [(s.enqChannel c d).channel_queues.map List.headI] }) ∧
      ((s.enqChannel c d).allNonEmpty = false →
        s.put c d = s.enqChannel c d)) := by
  constructor
  · have h := MCQ.putAll_ready_length C ops (MCQ.init (List ℚ) C)
      (by simp [MCQ.init]) (by simp [MCQ.init])
    exact h.1
  · intro s c d
    constructor
    · intro h
      rw [MCQ.put_pos s c d h]
      rfl
    · intro h
      exact MCQ.put_neg s c d (by simp [h])

/-- Witness for C2 with two channels and one frame per channel. -/
theorem c2_frameset_shape_witness :
    (∀ p ∈ [((0 : ℕ), [(1 : ℚ)]), (1, [2])], p.1 < 2) ∧
    (∀ fs ∈ ((MCQ.init (List ℚ) 2).putAll
        [((0 : ℕ), [(1 : ℚ)]), (1, [2])]).ready, fs.length = 2) := by
  have hops : ∀ p ∈ [((0 : ℕ), [(1 : ℚ)]), (1, [2])], p.1 < 2 := by
    intro p hp
    simp only [List.mem_cons, List.mem_singleton] at hp
    rcases hp with h | h | h
    · subst h; norm_num
    · subst h; norm_num
    · exact absurd h (List.not_mem_nil p)
  exact ⟨hops, (c2_frameset_shape 2 [((0 : ℕ), [(1 : ℚ)]), (1, [2])] hops).1⟩

/-- C3 counterexample: with an aligned frame size of 8 bytes, a single
call delivering 10 bytes (`k = 1`, `r = 2`) emits one frame but leaves
0 bytes pending — the 2-byte leftover is silently discarded mid-stream
by the fragment-discard branch, against the claim. -/
theorem c3_counterexample :
    (onNewSample 8 [] (List.replicate 10 0)).frames.length = 1 ∧
    (onNewSample 8 [] (List.replicate 10 0)).pending.length = 0 ∧
    (onNewSample 8 [] (List.replicate 10 0)).discarded = 2 ∧
    (List.replicate 10 0).length = 1 * 8 + 2 ∧
    (onNewSample 8 [] (List.replicate 10 0)).pending.length ≠ 2 := by
  refine ⟨?_, ?_, ?_, ?_, ?_⟩ <;> decide

/-- C3 (amended): feeding `k*N + r` bytes (`0 ≤ r < N`, `N` the aligned
frame size) across arbitrarily many calls yields exactly `k` frames and
leaves exactly `r` bytes pending, regardless of chunking, *provided* no
call both emits a frame and leaves a remainder strictly between `0` and
`N/2` — such a remainder is silently discarded mid-stream (the
`discarded = 0` hypothesis states that this never happened). -/
theorem c3_frame_slicing (required k r : ℕ) (chunks : List (List ℕ))
    (h4 : 4 ∣ required) (hN : 0 < required)
    (hnd : (ingestAll required chunks).discarded = 0)
    (htot : (chunks.map List.length).sum = k * required + r)
    (hr : r < required) :
    (ingestAll required chunks).frames.length = k ∧
    (ingestAll required chunks).pending.length = r :=
  ingestAll_spec required h4 hN chunks k r hnd htot hr

/-- Witness for C3 (amended): 24 bytes over chunks of 6, 6 and 12 with
frame size 8 yield three frames and an empty pending buffer. -/
theorem c3_frame_slicing_witness :
    (4 : ℕ) ∣ 8 ∧ (0 : ℕ) < 8 ∧
    (ingestAll 8 [List.replicate 6 0, List.replicate 6 0,
      List.replicate 12 0]).discarded = 0 ∧
    ([List.replicate 6 (0 : ℕ), List.replicate 6 0,
      List.replicate 12 0].map List.length).sum = 3 * 8 + 0 ∧
    (0 : ℕ) < 8 ∧
    (ingestAll 8 [List.replicate 6 0, List.replicate 6 0,
        List.replicate 12 0]).frames.length = 3 ∧
    (ingestAll 8 [List.replicate 6 0, List.replicate 6 0,
        List.replicate 12 0]).pending.length = 0 := by
  refine ⟨by norm_num, by norm_num, by decide, by decide, by norm_num, ?_⟩
  exact c3_frame_slicing 8 3 0
    [List.replicate 6 0, List.replicate 6 0, List.replicate 12 0]
    (by norm_num) (by norm_num) (by decide) (by decide) (by norm_num)

/-- Initial configuration for the C1 race: a fresh two-channel barrier,
thread 0 about to `put` frames `10` then `11` on channel 0, thread 1
about to `put` frames `20` then `21` on channel 1. -/
def c1_init : RaceConfig ℕ :=
  ⟨MCQ.init ℕ 2, [.idle [(0, 10), (0, 11)], .idle [(1, 20), (1, 21)]]⟩

/-- The deadlocked configuration the race reaches: the only emitted
frame-set pairs channel 0's *second* frame with channel 1's *first*,
thread 1 is blocked forever inside `channel_queues[1].get()` holding
frame `10`, and frame `21` is never pushed. -/
def c1_stuck : RaceConfig ℕ :=
  ⟨⟨[[], []], [[11, 20]]⟩, [.idle [], .popping 1 [10] [(1, 21)]]⟩

/-- C1: the unlocked `put` of `src/src/audio/utils.py` admits an
interleaving of two threads (channel 0 pushing frames `10, 11`;
channel 1 pushing `20, 21`, so `C = 2`, `M = 2`) that reaches a maximal
(stuck) configuration in which only one frame-set, `[11, 20]`, was ever
emitted — not the two frame-sets `[10, 20]`, `[11, 21]` the claim
requires — contradicting the class docstring "Methods of this class are
thread safe" (the sibling `multi_channel_queue.py` holds a lock here). -/
theorem c1_race_trace :
    RaceReachable 2 c1_init c1_stuck ∧
    raceSuccs 2 c1_stuck = [] ∧
    c1_stuck.shared.ready = [[11, 20]] ∧
    c1_stuck.shared.ready.length ≠ 2 := by
  refine ⟨?_, by decide, rfl, by decide⟩
  have h1 : RaceStep 2 c1_init
      ⟨⟨[[10], []], []⟩,
        [.checking [(0, 11)], .idle [(1, 20), (1, 21)]]⟩ := by decide
  have h2 : RaceStep 2
      ⟨⟨[[10], []], []⟩, [.checking [(0, 11)], .idle [(1, 20), (1, 21)]]⟩
      ⟨⟨[[10], []], []⟩, [.idle [(0, 11)], .idle [(1, 20), (1, 21)]]⟩ := by
    decide
  have h3 : RaceStep 2
      ⟨⟨[[10], []], []⟩, [.idle [(0, 11)], .idle [(1, 20), (1, 21)]]⟩
      ⟨⟨[[10], [20]], []⟩, [.idle [(0, 11)], .checking [(1, 21)]]⟩ := by
    decide
  have h4 : RaceStep 2
      ⟨⟨[[10], [20]], []⟩, [.idle [(0, 11)], .checking [(1, 21)]]⟩
      ⟨⟨[[10], [20]], []⟩, [.idle [(0, 11)], .popping 0 [] [(1, 21)]]⟩ := by
    decide
  have h5 : RaceStep 2
      ⟨⟨[[10], [20]], []⟩, [.idle [(0, 11)], .popping 0 [] [(1, 21)]]⟩
      ⟨⟨[[], [20]], []⟩, [.idle [(0, 11)], .popping 1 [10] [(1, 21)]]⟩ := by
    decide
  have h6 : RaceStep 2
      ⟨⟨[[], [20]], []⟩, [.idle [(0, 11)], .popping 1 [10] [(1, 21)]]⟩
      ⟨⟨[[11], [20]], []⟩, [.checking [], .popping 1 [10] [(1, 21)]]⟩ := by
    decide
  have h7 : RaceStep 2
      ⟨⟨[[11], [20]], []⟩, [.checking [], .popping 1 [10] [(1, 21)]]⟩
      ⟨⟨[[11], [20]], []⟩, [.popping 0 [] [], .popping 1 [10] [(1, 21)]]⟩ := by
    decide
  have h8 : RaceStep 2
      ⟨⟨[[11], [20]], []⟩, [.popping 0 [] [], .popping 1 [10] [(1, 21)]]⟩
      ⟨⟨[[], [20]], []⟩, [.popping 1 [11] [], .popping 1 [10] [(1, 21)]]⟩ := by
    decide
  have h9 : RaceStep 2
      ⟨⟨[[], [20]], []⟩, [.popping 1 [11] [], .popping 1 [10] [(1, 21)]]⟩
      ⟨⟨[[], []], []⟩,
        [.popping 2 [11, 20] [], .popping 1 [10] [(1, 21)]]⟩ := by decide
  have h10 : RaceStep 2
      ⟨⟨[[], []], []⟩, [.popping 2 [11, 20] [], .popping 1 [10] [(1, 21)]]⟩
      c1_stuck := by decide
  exact Relation.ReflTransGen.head h1 (Relation.ReflTransGen.head h2
    (Relation.ReflTransGen.head h3 (Relation.ReflTransGen.head h4
      (Relation.ReflTransGen.head h5 (Relation.ReflTransGen.head h6
        (Relation.ReflTransGen.head h7 (Relation.ReflTransGen.head h8
          (Relation.ReflTransGen.head h9 (Relation.ReflTransGen.head h10
            Relation.ReflTransGen.refl)))))))))
